import Mathlib

/-!
Verification of the mediaserver-enhanced media organizer core.

The definitions below are a shallow embedding of the two scripts
`scripts/media_organizer.py` and `scripts/cleanup_broken_hardlinks.py`:
pure string processing is translated function by function, and the
filesystem-mutating parts (hard-link creation, orphan cleanup) are
modelled as explicit state passing over an association-list filesystem.
Strings are Lean `String` / `List Char`; Python `\d` is modelled as the
ASCII digit test, and Python whitespace as `Char.isWhitespace`.
-/

namespace MediaServer

/-! ## Python string primitives -/

/-- Value of an ASCII digit character, as Python `int` of a digit. -/
def digitVal (c : Char) : Nat := c.toNat - 48

/-- Python `str.lower()` (ASCII). -/
def pyLower (s : String) : String := ⟨s.data.map Char.toLower⟩

/-- Python `str.capitalize()` (ASCII): first character uppercased, the rest
lowercased. -/
def pyCapitalize (s : String) : String :=
  match s.data with
  | [] => ""
  | c :: cs => ⟨Char.toUpper c :: cs.map Char.toLower⟩

/-- Python `str.strip()` with no argument: drop leading and trailing
whitespace. -/
def pyStrip (s : String) : String :=
  ⟨((s.data.dropWhile Char.isWhitespace).reverse.dropWhile Char.isWhitespace).reverse⟩

/-- Worker for Python `str.split()` with no argument: split on whitespace
runs, discarding empty pieces.  `acc` holds the reversed current word. -/
def splitWsGo : List Char → List Char → List (List Char)
  | [], acc => if acc.isEmpty then [] else [acc.reverse]
  | c :: cs, acc =>
    if c.isWhitespace then
      if acc.isEmpty then splitWsGo cs [] else acc.reverse :: splitWsGo cs []
    else splitWsGo cs (c :: acc)

/-- Python `str.split()` with no argument. -/
def pySplitWs (s : String) : List String :=
  (splitWsGo s.data []).map (fun l => ⟨l⟩)

/-- Python `' '.join(words)`. -/
def joinSpace : List String → String
  | [] => ""
  | w :: ws => ws.foldl (fun a b => a ++ " " ++ b) w

/-- Index of the last `'.'` in a character list, if any. -/
def lastDotIdx (cs : List Char) : Option Nat :=
  (cs.reverse.findIdx? (fun c => c == '.')).map (fun j => cs.length - 1 - j)

/-- Python `pathlib.PurePath(name).stem`: the name up to its last dot,
provided that dot is neither the first nor the last character. -/
def pyStem (s : String) : String :=
  match lastDotIdx s.data with
  | some i => if 0 < i ∧ i < s.data.length - 1 then ⟨s.data.take i⟩ else s
  | none => s

/-- Python `pathlib.PurePath(name).suffix`: from the last dot on, under the
same proviso as `pyStem`. -/
def pySuffix (s : String) : String :=
  match lastDotIdx s.data with
  | some i => if 0 < i ∧ i < s.data.length - 1 then ⟨s.data.drop i⟩ else ""
  | none => ""

/-! ## Filename classifier (`MediaOrganizer.parse_filename`) -/

/-- Regex `\d{1,2}` with the regex engine's greedy matching: take two digits
when the second character is also a digit, otherwise one. -/
def digits12 : List Char → Option (Nat × List Char)
  | [] => none
  | [d1] => if d1.isDigit then some (digitVal d1, []) else none
  | d1 :: d2 :: rest =>
    if d1.isDigit then
      if d2.isDigit then some (10 * digitVal d1 + digitVal d2, rest)
      else some (digitVal d1, d2 :: rest)
    else none

/-- Match of `[Ss](\d{1,2})[Ee](\d{1,2})` anchored at the head of the list,
returning the two captured numbers and the remainder after the match.
When the greedy season group takes two digits, the regex backtracking to a
one-digit season can never help (the character after the first digit would
have to be both a digit and `[Ee]`), so the greedy-only translation is
exact. -/
def matchSEAt : List Char → Option (Nat × Nat × List Char)
  | [] => none
  | s :: rest =>
    if s == 'S' || s == 's' then
      match digits12 rest with
      | some (n, rest2) =>
        match rest2 with
        | [] => none
        | e :: rest3 =>
          if e == 'E' || e == 'e' then
            match digits12 rest3 with
            | some (m, rest4) => some (n, m, rest4)
            | none => none
          else none
      | none => none
    else none

/-- Python `re.search` of the season/episode pattern: leftmost match wins.
Returns the text before the match (which is also `re.split(...)[0]`), the
season and episode numbers, and the remainder after the match. -/
def searchSE : List Char → Option (List Char × Nat × Nat × List Char)
  | [] => none
  | c :: cs =>
    match matchSEAt (c :: cs) with
    | some (n, m, rest) => some ([], n, m, rest)
    | none => (searchSE cs).map (fun r => (c :: r.1, r.2))

/-- Match of `(19|20)\d{2}` anchored at the head of the list. -/
def yearCoreAt : List Char → Option (Nat × List Char)
  | a :: b :: c :: d :: rest =>
    if ((a == '1' && b == '9') || (a == '2' && b == '0')) && c.isDigit && d.isDigit then
      some (1000 * digitVal a + 100 * digitVal b + 10 * digitVal c + digitVal d, rest)
    else none
  | _ => none

/-- Trailing `[\)\]]?` of the year pattern: consume one closing bracket when
present. -/
def dropCloseBracket : List Char → List Char
  | [] => []
  | c :: rest => if c == ')' || c == ']' then rest else c :: rest

/-- Match of `[\(\[]?(19|20)\d{2}[\)\]]?` anchored at the head of the list.
The year value is `int(group(0).strip('()[]'))` of the Python code, i.e.
the four digits.  An opening bracket not followed by the digit core cannot
be saved by backtracking (the bracket is not a digit), so the translation
is exact. -/
def matchYearAt : List Char → Option (Nat × List Char)
  | [] => none
  | c :: rest =>
    if c == '(' || c == '[' then
      match yearCoreAt rest with
      | some (y, r) => some (y, dropCloseBracket r)
      | none => none
    else
      match yearCoreAt (c :: rest) with
      | some (y, r) => some (y, dropCloseBracket r)
      | none => none

/-- Python `re.search` of the year pattern: leftmost match; returns the text
before the match, the year and the remainder. -/
def searchYear : List Char → Option (List Char × Nat × List Char)
  | [] => none
  | c :: cs =>
    match matchYearAt (c :: cs) with
    | some (y, rest) => some ([], y, rest)
    | none => (searchYear cs).map (fun r => (c :: r.1, r.2))

/-- Case-insensitive literal match of `pat` at the head of `cs`, returning
the actually matched characters and the remainder. -/
def matchCIAt : List Char → List Char → Option (List Char × List Char)
  | [], cs => some ([], cs)
  | _ :: _, [] => none
  | p :: ps, c :: cs =>
    if c.toLower == p.toLower then
      (matchCIAt ps cs).map (fun r => (c :: r.1, r.2))
    else none

/-- Match of `(720p|1080p|2160p|4K)` (IGNORECASE) anchored at the head. -/
def matchResAt (cs : List Char) : Option (List Char) :=
  match matchCIAt "720p".data cs with
  | some r => some r.1
  | none =>
    match matchCIAt "1080p".data cs with
    | some r => some r.1
    | none =>
      match matchCIAt "2160p".data cs with
      | some r => some r.1
      | none => (matchCIAt "4K".data cs).map (fun r => r.1)

/-- Python `re.search` of the resolution pattern, returning the matched text. -/
def searchRes : List Char → Option (List Char)
  | [] => none
  | c :: cs =>
    match matchResAt (c :: cs) with
    | some m => some m
    | none => searchRes cs

/-- Resolution tag of a name: the matched text, or the empty string. -/
def resOf (cs : List Char) : String :=
  match searchRes cs with
  | some m => ⟨m⟩
  | none => ""

/-! ## Title normalizer (`MediaOrganizer.title_case`) -/

/-- Minor words left lowercase by `title_case`. -/
def lowercase_words : List String :=
  ["a", "an", "and", "as", "at", "but", "by", "for", "from",
   "in", "of", "on", "or", "the", "to", "with"]

/-- Body of the `for i, word in enumerate(words)` loop of `title_case`:
`n` is the total word count, `i` the index of the head word. -/
def title_case_go (n : Nat) : Nat → List String → List String
  | _, [] => []
  | i, w :: ws =>
    (if i = 0 ∨ i = n - 1 then pyCapitalize w
     else if lowercase_words.contains (pyLower w) then pyLower w
     else pyCapitalize w) :: title_case_go n (i + 1) ws

/-- `MediaOrganizer.title_case`: split on whitespace, case each word by
position and minor-word membership, join with single spaces. -/
def title_case (text : String) : String :=
  let words := pySplitWs text
  joinSpace (title_case_go words.length 0 words)

/-- Replacement of `[\._-]+` runs by a single space (`re.sub`).  The flag
records whether the previous character was part of a punctuation run. -/
def squashGo (inRun : Bool) : List Char → List Char
  | [] => []
  | c :: cs =>
    if c == '.' || c == '_' || c == '-' then
      if inRun then squashGo true cs else ' ' :: squashGo true cs
    else c :: squashGo false cs

/-- Replacement of `\s+` runs by a single space (`re.sub`). -/
def collapseGo (inRun : Bool) : List Char → List Char
  | [] => []
  | c :: cs =>
    if c.isWhitespace then
      if inRun then collapseGo true cs else ' ' :: collapseGo true cs
    else c :: collapseGo false cs

/-- Title cleanup of `parse_filename`: punctuation runs to spaces, strip,
collapse whitespace runs. -/
def cleanTitle (cs : List Char) : String :=
  ⟨collapseGo false (pyStrip ⟨squashGo false cs⟩).data⟩

/-- Metadata record built by `parse_filename` (the `info` dictionary). -/
structure MediaInfo where
  original_name : String
  title : String
  year : Option Nat
  season : Option Nat
  episode : Option Nat
  resolution : String
  is_tv : Bool
  deriving DecidableEq, Repr

/-- `MediaOrganizer.parse_filename`: strip the extension, try the
season/episode pattern first, else the year pattern, else fall back to the
whole stem as title; clean and title-case the title; record the
resolution tag found anywhere in the stem. -/
def parse_filename (filename : String) : MediaInfo :=
  let name := pyStem filename
  match searchSE name.data with
  | some (pre, n, m, _) =>
    { original_name := name, title := title_case (cleanTitle pre),
      year := none, season := some n, episode := some m,
      resolution := resOf name.data, is_tv := true }
  | none =>
    match searchYear name.data with
    | some (pre, y, _) =>
      { original_name := name, title := title_case (cleanTitle pre),
        year := some y, season := none, episode := none,
        resolution := resOf name.data, is_tv := false }
    | none =>
      { original_name := name, title := title_case (cleanTitle name.data),
        year := none, season := none, episode := none,
        resolution := resOf name.data, is_tv := false }

/-! ## Path resolver (`organize_movie` / `organize_tv_show`) -/

/-- Characters removed by the sanitizing `re.sub(r'[<>:"/\\|?*]', '', ...)`. -/
def badChars : List Char := ['<', '>', ':', '"', '/', '\\', '|', '?', '*']

/-- Sanitization of a name component: drop every unsafe character. -/
def sanitize (s : String) : String :=
  ⟨s.data.filter (fun c => !(badChars.contains c))⟩

/-- Does a component contain a filesystem-unsafe character? -/
def hasBadChar (s : String) : Bool :=
  s.data.any (fun c => badChars.contains c)

/-- Python `f"{n:02d}"` for a natural number. -/
def pad2 (n : Nat) : String :=
  if n < 10 then "0" ++ Nat.repr n else Nat.repr n

/-- `MediaOrganizer.organize_movie`, reduced to its path computation: the
destination path as components `[moviesRoot, directory, filename]`.
`fn` is `file_path.name`. -/
def organize_movie (moviesRoot fn : String) (info : MediaInfo) : List String :=
  let dir_name :=
    match info.year with
    | some y => info.title ++ " (" ++ Nat.repr y ++ ")"
    | none => info.title
  [moviesRoot, sanitize dir_name, fn]

/-- `MediaOrganizer.organize_tv_show`, reduced to its path computation: the
destination path as components `[tvRoot, show, season dir, episode file]`. -/
def organize_tv_show (tvRoot fn : String) (title : String) (n m : Nat) : List String :=
  let show_name := sanitize title
  [tvRoot, show_name, "Season " ++ pad2 n,
   show_name ++ " - S" ++ pad2 n ++ "E" ++ pad2 m ++ pySuffix fn]

/-- Destination path of `MediaOrganizer.organize_file` for a file named
`fn`: TV path when the classifier saw an episode, else movie path.  The
`none` case is unreachable: `season` and `episode` are always populated
when `is_tv` is set (proved below); in Python a missing value would raise
inside the format string. -/
def dest_path (moviesRoot tvRoot fn : String) : Option (List String) :=
  let info := parse_filename fn
  if info.is_tv then
    match info.season, info.episode with
    | some n, some m => some (organize_tv_show tvRoot fn info.title n m)
    | _, _ => none
  else some (organize_movie moviesRoot fn info)

/-- Extensions recognized by `find_video_files` (`VIDEO_EXTENSIONS`). -/
def video_extensions : List String :=
  [".mkv", ".mp4", ".avi", ".mov", ".m4v", ".wmv", ".flv", ".webm", ".ts", ".m2ts"]

/-! ## Hardlink creation (`MediaOrganizer.create_hardlink`)

The filesystem is an association list from paths to inode numbers plus a
device assignment on paths (hard links across devices fail with `EXDEV`,
which `os.link` reports for paths on different mounted filesystems).
Directory creation (`mkdir(parents=True, exist_ok=True)`) always succeeds
and is not tracked. -/

structure Fs where
  files : List (String × Nat)
  dev : String → Nat

/-- Path lookup: the inode a path refers to, if any. -/
def fsLookup (fs : Fs) (p : String) : Option Nat := fs.files.lookup p

/-- `Path.unlink`: remove the directory entry for a path. -/
def fsUnlink (fs : Fs) (p : String) : Fs :=
  { fs with files := fs.files.filter (fun e => !(e.1 == p)) }

/-- `os.link(src, dst)`: fails when the source is missing, the destination
exists, or the two paths live on different devices. -/
def osLink (fs : Fs) (src dst : String) : Option Fs :=
  match fsLookup fs src with
  | none => none
  | some ino =>
    if (fsLookup fs dst).isSome then none
    else if fs.dev src == fs.dev dst then
      some { fs with files := (dst, ino) :: fs.files }
    else none

/-- `MediaOrganizer.create_hardlink`: remove an existing destination entry,
then attempt the link; on any failure return `false` with the state as
mutated so far (the removal is not rolled back). -/
def create_hardlink (fs : Fs) (src dst : String) : Bool × Fs :=
  let fs1 := if (fsLookup fs dst).isSome then fsUnlink fs dst else fs
  match osLink fs1 src dst with
  | some fs2 => (true, fs2)
  | none => (false, fs1)

/-! ## Orphan reconciler (`cleanup_broken_hardlinks.py`) -/

/-- One entry of the `rglob('*')` scan of the staging tree. -/
structure ScanFile where
  path : String
  isFile : Bool
  nlink : Nat
  deriving DecidableEq, Repr

/-- Final component of a path (what `pathlib` calls the name). -/
def baseName (p : String) : String :=
  ⟨(p.data.reverse.takeWhile (fun c => !(c == '/'))).reverse⟩

/-- Parent directory of a path: everything before the last slash. -/
def parentDir (p : String) : String :=
  ⟨((p.data.reverse.dropWhile (fun c => !(c == '/'))).drop 1).reverse⟩

/-- Extensions recognized by the reconciler (a narrower set than the
organizer's). -/
def cleanup_exts : List String := [".mkv", ".mp4", ".avi", ".mov"]

/-- `find_broken_hardlinks`: regular files with a recognized extension whose
link count is exactly 1. -/
def find_broken_hardlinks (entries : List ScanFile) : List ScanFile :=
  entries.filter (fun f =>
    f.isFile && cleanup_exts.contains (pyLower (pySuffix (baseName f.path))) && (f.nlink == 1))

/-- Staging-side filesystem state seen by the cleanup: the scanned files
plus the directories of the staging tree. -/
structure CleanupFs where
  files : List ScanFile
  dirs : List String
  deriving DecidableEq, Repr

/-- The confirmation test of `cleanup_orphaned_files`:
`input(...).strip().lower() == 'y'`. -/
def affirmative (resp : String) : Bool := pyLower (pyStrip resp) == "y"

/-- Deletion of one orphan: unlink the file, then remove its parent
directory when that directory is not the staging root and now has neither
files nor subdirectories. -/
def delete_orphan (root : String) (st : CleanupFs) (f : ScanFile) : CleanupFs :=
  let files1 := st.files.filter (fun g => !(g.path == f.path))
  let par := parentDir f.path
  let parEmpty := files1.all (fun g => !(parentDir g.path == par)) &&
    st.dirs.all (fun d => !(parentDir d == par))
  if !(par == root) && parEmpty then
    { files := files1, dirs := st.dirs.filter (fun d => !(d == par)) }
  else
    { files := files1, dirs := st.dirs }

/-- `cleanup_orphaned_files`: list the orphans; with no orphans, or with any
confirmation input other than an affirmative one, change nothing;
otherwise delete each orphan in turn. -/
def cleanup_orphaned_files (root : String) (st : CleanupFs) (resp : String) : CleanupFs :=
  let orphaned := find_broken_hardlinks st.files
  if orphaned.isEmpty then st
  else if affirmative resp then orphaned.foldl (delete_orphan root) st
  else st

/-! ## Token predicates

These express, independently of the matcher implementations, what it means
for a substring to be a season/episode token or a year token, in the words
of the specification. -/

/-- Numeric value of a digit string, as Python `int`. -/
def digitsVal (ds : List Char) : Nat := ds.foldl (fun a c => 10 * a + digitVal c) 0

/-- The list `tok` is a token matching `S<n>E<m>` (case-insensitive, with
one or two digits for each number). -/
def isSEToken (tok : List Char) (n m : Nat) : Prop :=
  ∃ s ds e es, tok = s :: (ds ++ e :: es) ∧ (s = 'S' ∨ s = 's') ∧ (e = 'E' ∨ e = 'e') ∧
    ds ≠ [] ∧ ds.length ≤ 2 ∧ (∀ c ∈ ds, c.isDigit = true) ∧ digitsVal ds = n ∧
    es ≠ [] ∧ es.length ≤ 2 ∧ (∀ c ∈ es, c.isDigit = true) ∧ digitsVal es = m

/-- The list `cs` is a bare 4-digit year `(19|20)\d{2}` of value `y`. -/
def yearCore (cs : List Char) (y : Nat) : Prop :=
  ∃ a b c d, cs = [a, b, c, d] ∧ ((a = '1' ∧ b = '9') ∨ (a = '2' ∧ b = '0')) ∧
    c.isDigit = true ∧ d.isDigit = true ∧
    y = 1000 * digitVal a + 100 * digitVal b + 10 * digitVal c + digitVal d

/-- The list `tok` is a parenthesized or bracketed 4-digit year of value
`y` (necessarily in `[1900, 2099]`). -/
def isYearToken (tok : List Char) (y : Nat) : Prop :=
  ∃ o core cl, tok = o :: core ++ [cl] ∧ (o = '(' ∨ o = '[') ∧ (cl = ')' ∨ cl = ']') ∧
    yearCore core y

/-- The list `tok` is a token of the organizer's year pattern
`[\(\[]?(19|20)\d{2}[\)\]]?`: a bare year with optional brackets. -/
def yearMatchToken (tok : List Char) (y : Nat) : Prop :=
  ∃ op core cl, tok = op ++ core ++ cl ∧ yearCore core y ∧
    (op = [] ∨ op = ['('] ∨ op = ['[']) ∧ (cl = [] ∨ cl = [')'] ∨ cl = [']'])

/-! ## Soundness and completeness of the season/episode matcher -/

lemma list_len12 {α : Type} {ds : List α} (h1 : ds ≠ []) (h2 : ds.length ≤ 2) :
    (∃ d, ds = [d]) ∨ (∃ d1 d2, ds = [d1, d2]) := by
  match ds with
  | [] => simp at h1
  | [d] => exact Or.inl ⟨d, rfl⟩
  | [d1, d2] => exact Or.inr ⟨d1, d2, rfl⟩
  | d1 :: d2 :: d3 :: t => simp at h2

lemma digits12_sound {l : List Char} {v : Nat} {r : List Char}
    (h : digits12 l = some (v, r)) :
    ∃ ds, l = ds ++ r ∧ ds ≠ [] ∧ ds.length ≤ 2 ∧
      (∀ c ∈ ds, c.isDigit = true) ∧ digitsVal ds = v := by
  match l with
  | [] => simp [digits12] at h
  | [d1] =>
    simp only [digits12] at h
    split at h
    · simp only [Option.some.injEq, Prod.mk.injEq] at h
      obtain ⟨hv, hr⟩ := h
      refine ⟨[d1], by simp [hr.symm], by simp, by simp, by simp_all, ?_⟩
      simp [digitsVal, hv.symm]
    · exact absurd h (by simp)
  | d1 :: d2 :: rest =>
    simp only [digits12] at h
    split at h
    · split at h
      · simp only [Option.some.injEq, Prod.mk.injEq] at h
        obtain ⟨hv, hr⟩ := h
        refine ⟨[d1, d2], by simp [hr.symm], by simp, by simp, by simp_all, ?_⟩
        simp [digitsVal, hv.symm]
      · simp only [Option.some.injEq, Prod.mk.injEq] at h
        obtain ⟨hv, hr⟩ := h
        refine ⟨[d1], by simp [hr.symm], by simp, by simp, by simp_all, ?_⟩
        simp [digitsVal, hv.symm]
    · exact absurd h (by simp)

lemma matchSEAt_sound {l : List Char} {n m : Nat} {r : List Char}
    (h : matchSEAt l = some (n, m, r)) :
    ∃ tok, l = tok ++ r ∧ isSEToken tok n m := by
  match l with
  | [] => simp [matchSEAt] at h
  | s :: rest =>
    simp only [matchSEAt] at h
    split at h
    case isTrue hs =>
      cases hd : digits12 rest with
      | none => rw [hd] at h; simp at h
      | some p =>
        obtain ⟨nv, rest2⟩ := p
        rw [hd] at h
        match rest2 with
        | [] => simp at h
        | e :: rest3 =>
          simp only at h
          split at h
          case isTrue he =>
            cases hd2 : digits12 rest3 with
            | none => rw [hd2] at h; simp at h
            | some q =>
              obtain ⟨mv, rest4⟩ := q
              rw [hd2] at h
              simp only [Option.some.injEq, Prod.mk.injEq] at h
              obtain ⟨hn, hm, hr⟩ := h
              obtain ⟨ds, hds, hds1, hds2, hdsd, hdsv⟩ := digits12_sound hd
              obtain ⟨es, hes, hes1, hes2, hesd, hesv⟩ := digits12_sound hd2
              refine ⟨s :: (ds ++ e :: es), ?_, s, ds, e, es, rfl, ?_, ?_,
                hds1, hds2, hdsd, by rw [hdsv, hn], hes1, hes2, hesd, by rw [hesv, hm]⟩
              · subst hr
                simp [hds, hes, List.append_assoc]
              · rcases Bool.or_eq_true_iff.mp hs with h1 | h1
                · exact Or.inl (by simpa using h1)
                · exact Or.inr (by simpa using h1)
              · rcases Bool.or_eq_true_iff.mp he with h1 | h1
                · exact Or.inl (by simpa using h1)
                · exact Or.inr (by simpa using h1)
          case isFalse => simp at h
    case isFalse => simp at h

lemma matchSEAt_complete {tok : List Char} (suf : List Char) {n m : Nat}
    (h : isSEToken tok n m) : (matchSEAt (tok ++ suf)).isSome = true := by
  obtain ⟨s, ds, e, es, htok, hs, he, hds1, hds2, hdsd, _, hes1, hes2, hesd, _⟩ := h
  subst htok
  have hsb : (s == 'S' || s == 's') = true := by
    rcases hs with rfl | rfl <;> simp
  have heb : (e == 'E' || e == 'e') = true := by
    rcases he with rfl | rfl <;> simp
  have hed : e.isDigit = false := by
    rcases he with rfl | rfl <;> decide
  rcases list_len12 hds1 hds2 with ⟨d, rfl⟩ | ⟨d1, d2, rfl⟩ <;>
    rcases list_len12 hes1 hes2 with ⟨x, rfl⟩ | ⟨x1, x2, rfl⟩
  · have hd : d.isDigit = true := hdsd d (by simp)
    have hx : x.isDigit = true := hesd x (by simp)
    cases suf with
    | nil => simp [matchSEAt, digits12, hsb, heb, hd, hed, hx]
    | cons c cs =>
      by_cases hc : c.isDigit <;>
        simp [matchSEAt, digits12, hsb, heb, hd, hed, hx, hc]
  · have hd : d.isDigit = true := hdsd d (by simp)
    have hx1 : x1.isDigit = true := hesd x1 (by simp)
    have hx2 : x2.isDigit = true := hesd x2 (by simp)
    simp [matchSEAt, digits12, hsb, heb, hd, hed, hx1, hx2]
  · have hd1 : d1.isDigit = true := hdsd d1 (by simp)
    have hd2 : d2.isDigit = true := hdsd d2 (by simp)
    have hx : x.isDigit = true := hesd x (by simp)
    cases suf with
    | nil => simp [matchSEAt, digits12, hsb, heb, hd1, hd2, hed, hx]
    | cons c cs =>
      by_cases hc : c.isDigit <;>
        simp [matchSEAt, digits12, hsb, heb, hd1, hd2, hed, hx, hc]
  · have hd1 : d1.isDigit = true := hdsd d1 (by simp)
    have hd2 : d2.isDigit = true := hdsd d2 (by simp)
    have hx1 : x1.isDigit = true := hesd x1 (by simp)
    have hx2 : x2.isDigit = true := hesd x2 (by simp)
    simp [matchSEAt, digits12, hsb, heb, hd1, hd2, hed, hx1, hx2]

lemma searchSE_sound {l pre : List Char} {n m : Nat} {r : List Char}
    (h : searchSE l = some (pre, n, m, r)) :
    ∃ tok, l = pre ++ tok ++ r ∧ isSEToken tok n m := by
  induction l generalizing pre with
  | nil => simp [searchSE] at h
  | cons c cs ih =>
    rw [searchSE] at h
    cases hm : matchSEAt (c :: cs) with
    | some p =>
      obtain ⟨n', m', r'⟩ := p
      rw [hm] at h
      simp only [Option.some.injEq, Prod.mk.injEq] at h
      obtain ⟨h1, h2, h3, h4⟩ := h
      obtain ⟨tok, htok, hse⟩ := matchSEAt_sound hm
      subst h2; subst h3; subst h4
      exact ⟨tok, by simp [← h1, htok], hse⟩
    | none =>
      rw [hm] at h
      simp only [Option.map_eq_some'] at h
      obtain ⟨⟨pre', q⟩, hq, heq⟩ := h
      simp only [Prod.mk.injEq] at heq
      obtain ⟨h1, h2⟩ := heq
      obtain ⟨tok, htok, hse⟩ := ih (by rw [hq, h2])
      exact ⟨tok, by simp [← h1, htok], hse⟩

lemma searchSE_complete {rest : List Char} (pre : List Char)
    (h : (matchSEAt rest).isSome = true) : (searchSE (pre ++ rest)).isSome = true := by
  induction pre with
  | nil =>
    cases rest with
    | nil => simp [matchSEAt] at h
    | cons c cs =>
      rw [Option.isSome_iff_exists] at h
      obtain ⟨⟨n, m, r⟩, hm⟩ := h
      simp [searchSE, hm]
  | cons c cs ih =>
    rw [List.cons_append, searchSE]
    cases hm : matchSEAt (c :: (cs ++ rest)) with
    | some p =>
      obtain ⟨n, m, r⟩ := p
      simp [hm]
    | none =>
      simp only [hm, Option.isSome_map']
      exact ih

/-- A string with no season/episode search hit contains no season/episode
token at all. -/
lemma no_se_token_of_searchSE_none {l : List Char} (h : searchSE l = none) :
    ¬ ∃ pre tok suf n m, l = pre ++ tok ++ suf ∧ isSEToken tok n m := by
  rintro ⟨pre, tok, suf, n, m, rfl, htok⟩
  have h1 := matchSEAt_complete suf htok
  have h2 := searchSE_complete pre h1
  rw [← List.append_assoc, h] at h2
  simp at h2

/-! ## Soundness of the year matcher -/

lemma yearCoreAt_sound {l : List Char} {y : Nat} {r : List Char}
    (h : yearCoreAt l = some (y, r)) :
    ∃ core, l = core ++ r ∧ yearCore core y := by
  match l with
  | [] => simp [yearCoreAt] at h
  | [_] => simp [yearCoreAt] at h
  | [_, _] => simp [yearCoreAt] at h
  | [_, _, _] => simp [yearCoreAt] at h
  | a :: b :: c :: d :: rest =>
    simp only [yearCoreAt] at h
    split at h
    case isTrue hcond =>
      simp only [Option.some.injEq, Prod.mk.injEq] at h
      obtain ⟨hy, hr⟩ := h
      simp only [Bool.and_eq_true, Bool.or_eq_true, Bool.and_eq_true, beq_iff_eq] at hcond
      obtain ⟨⟨hab, hc⟩, hd⟩ := hcond
      refine ⟨[a, b, c, d], by simp [← hr], a, b, c, d, rfl, ?_, hc, hd, hy.symm⟩
      rcases hab with ⟨h1, h2⟩ | ⟨h1, h2⟩
      · exact Or.inl ⟨h1, h2⟩
      · exact Or.inr ⟨h1, h2⟩
    case isFalse => simp at h

lemma dropCloseBracket_decomp (r : List Char) :
    ∃ cl, r = cl ++ dropCloseBracket r ∧ (cl = [] ∨ cl = [')'] ∨ cl = [']']) := by
  match r with
  | [] => exact ⟨[], by simp [dropCloseBracket], Or.inl rfl⟩
  | c :: rest =>
    by_cases hc : (c == ')' || c == ']') = true
    · refine ⟨[c], by simp [dropCloseBracket, hc], ?_⟩
      rcases Bool.or_eq_true_iff.mp hc with h1 | h1
      · exact Or.inr (Or.inl (by simpa using congrArg (List.cons · []) (beq_iff_eq.mp h1)))
      · exact Or.inr (Or.inr (by simpa using congrArg (List.cons · []) (beq_iff_eq.mp h1)))
    · exact ⟨[], by simp [dropCloseBracket, Bool.or_eq_true_iff.not.mp hc, hc], Or.inl rfl⟩

lemma matchYearAt_sound {l : List Char} {y : Nat} {r : List Char}
    (h : matchYearAt l = some (y, r)) :
    ∃ tok, l = tok ++ r ∧ yearMatchToken tok y := by
  match l with
  | [] => simp [matchYearAt] at h
  | c :: rest =>
    simp only [matchYearAt] at h
    split at h
    case isTrue hbr =>
      cases hy : yearCoreAt rest with
      | none => rw [hy] at h; simp at h
      | some p =>
        obtain ⟨y', r0⟩ := p
        rw [hy] at h
        simp only [Option.some.injEq, Prod.mk.injEq] at h
        obtain ⟨hy1, hr⟩ := h
        obtain ⟨core, hcore, hyc⟩ := yearCoreAt_sound hy
        obtain ⟨cl, hcl, hclr⟩ := dropCloseBracket_decomp r0
        refine ⟨[c] ++ core ++ cl, ?_, [c], core, cl, rfl, by rw [hy1] at hyc; exact hyc, ?_, hclr⟩
        · rw [← hr]
          generalize hdc : dropCloseBracket r0 = dcb at hcl ⊢
          rw [hcore, hcl]
          simp
        · rcases Bool.or_eq_true_iff.mp hbr with h1 | h1
          · exact Or.inr (Or.inl (by simpa using congrArg (List.cons · []) (beq_iff_eq.mp h1)))
          · exact Or.inr (Or.inr (by simpa using congrArg (List.cons · []) (beq_iff_eq.mp h1)))
    case isFalse hbr =>
      cases hy : yearCoreAt (c :: rest) with
      | none => rw [hy] at h; simp at h
      | some p =>
        obtain ⟨y', r0⟩ := p
        rw [hy] at h
        simp only [Option.some.injEq, Prod.mk.injEq] at h
        obtain ⟨hy1, hr⟩ := h
        obtain ⟨core, hcore, hyc⟩ := yearCoreAt_sound hy
        obtain ⟨cl, hcl, hclr⟩ := dropCloseBracket_decomp r0
        refine ⟨[] ++ core ++ cl, ?_, [], core, cl, rfl, by rw [hy1] at hyc; exact hyc, Or.inl rfl, hclr⟩
        rw [← hr]
        generalize hdc : dropCloseBracket r0 = dcb at hcl ⊢
        rw [hcore, hcl]
        simp

lemma searchYear_sound {l pre : List Char} {y : Nat} {r : List Char}
    (h : searchYear l = some (pre, y, r)) :
    ∃ tok, l = pre ++ tok ++ r ∧ yearMatchToken tok y := by
  induction l generalizing pre with
  | nil => simp [searchYear] at h
  | cons c cs ih =>
    rw [searchYear] at h
    cases hm : matchYearAt (c :: cs) with
    | some p =>
      obtain ⟨y', r'⟩ := p
      rw [hm] at h
      simp only [Option.some.injEq, Prod.mk.injEq] at h
      obtain ⟨h1, h2, h3⟩ := h
      obtain ⟨tok, htok, hym⟩ := matchYearAt_sound hm
      subst h2; subst h3
      exact ⟨tok, by simp [← h1, htok], hym⟩
    | none =>
      rw [hm] at h
      simp only [Option.map_eq_some'] at h
      obtain ⟨⟨pre', q⟩, hq, heq⟩ := h
      simp only [Prod.mk.injEq] at heq
      obtain ⟨h1, h2⟩ := heq
      obtain ⟨tok, htok, hym⟩ := ih (by rw [hq, h2])
      exact ⟨tok, by simp [← h1, htok], hym⟩

/-! ## Branch structure of the classifier -/

set_option maxRecDepth 4000 in
lemma parse_filename_tv {fn : String} {pre : List Char} {n m : Nat} {r : List Char}
    (h : searchSE (pyStem fn).data = some (pre, n, m, r)) :
    (parse_filename fn).is_tv = true ∧ (parse_filename fn).year = none ∧
    (parse_filename fn).season = some n ∧ (parse_filename fn).episode = some m := by
  simp [parse_filename, h]

set_option maxRecDepth 4000 in
lemma parse_filename_movie {fn : String} (h : searchSE (pyStem fn).data = none) :
    (parse_filename fn).is_tv = false ∧ (parse_filename fn).season = none ∧
    (parse_filename fn).episode = none := by
  cases hy : searchYear (pyStem fn).data with
  | none => simp [parse_filename, h, hy]
  | some p =>
    obtain ⟨pre, y, r⟩ := p
    simp [parse_filename, h, hy]

set_option maxRecDepth 4000 in
lemma parse_filename_movie_year {fn : String} {pre : List Char} {y : Nat} {r : List Char}
    (h : searchSE (pyStem fn).data = none)
    (hy : searchYear (pyStem fn).data = some (pre, y, r)) :
    (parse_filename fn).is_tv = false ∧ (parse_filename fn).year = some y := by
  simp [parse_filename, h, hy]

/-! ## Numeric bounds on matched season/episode values -/

lemma digitVal_le_9 {c : Char} (h : c.isDigit = true) : digitVal c ≤ 9 := by
  simp [Char.isDigit] at h
  simp only [digitVal]
  exact Nat.sub_le_of_le_add h.2

lemma digitsVal_le_99 {ds : List Char} (h1 : ds ≠ []) (h2 : ds.length ≤ 2)
    (h3 : ∀ c ∈ ds, c.isDigit = true) : digitsVal ds ≤ 99 := by
  rcases list_len12 h1 h2 with ⟨d, rfl⟩ | ⟨d1, d2, rfl⟩
  · have := digitVal_le_9 (h3 d (by simp))
    simp only [digitsVal, List.foldl]
    omega
  · have hb1 := digitVal_le_9 (h3 d1 (by simp))
    have hb2 := digitVal_le_9 (h3 d2 (by simp))
    simp only [digitsVal, List.foldl]
    omega

lemma isSEToken_le_99 {tok : List Char} {n m : Nat} (h : isSEToken tok n m) :
    n ≤ 99 ∧ m ≤ 99 := by
  obtain ⟨s, ds, e, es, _, _, _, hds1, hds2, hdsd, hdsv, hes1, hes2, hesd, hesv⟩ := h
  exact ⟨hdsv ▸ digitsVal_le_99 hds1 hds2 hdsd, hesv ▸ digitsVal_le_99 hes1 hes2 hesd⟩

/-! ## Association-list lemmas for the filesystem model -/

lemma lookup_cons (p k : String) (v : Nat) (t : List (String × Nat)) :
    List.lookup p ((k, v) :: t) = if p == k then some v else List.lookup p t := by
  rw [List.lookup]
  cases h : p == k <;> simp [h]

lemma lookup_filter_ne {l : List (String × Nat)} {p q : String} (h : p ≠ q) :
    (l.filter (fun e => !(e.1 == q))).lookup p = l.lookup p := by
  induction l with
  | nil => rfl
  | cons e t ih =>
    obtain ⟨k, v⟩ := e
    rw [List.filter_cons]
    by_cases hk : k = q
    · subst hk
      have hpk : (p == k) = false := by simp [h]
      simp only [beq_self_eq_true, Bool.not_true, Bool.false_eq_true, if_false, ih,
        lookup_cons, hpk, Bool.false_eq_true, if_false]
    · have hkq : (k == q) = false := by simp [hk]
      simp only [hkq, Bool.not_false, if_true, lookup_cons, ih]

lemma lookup_filter_self {l : List (String × Nat)} {q : String} :
    (l.filter (fun e => !(e.1 == q))).lookup q = none := by
  induction l with
  | nil => rfl
  | cons e t ih =>
    obtain ⟨k, v⟩ := e
    rw [List.filter_cons]
    by_cases hk : k = q
    · subst hk
      simpa using ih
    · have hkq : (k == q) = false := by simp [hk]
      have hqk : (q == k) = false := by simp [Ne.symm hk]
      simp only [hkq, Bool.not_false, if_true, lookup_cons, hqk, Bool.false_eq_true, if_false, ih]

lemma lookup_none_all {l : List (String × Nat)} {q : String} (h : l.lookup q = none) :
    ∀ e ∈ l, (e.1 == q) = false := by
  induction l with
  | nil => simp
  | cons e t ih =>
    obtain ⟨k, v⟩ := e
    rw [lookup_cons] at h
    cases hqk : q == k with
    | true => rw [hqk] at h; simp at h
    | false =>
      rw [hqk] at h
      simp only [Bool.false_eq_true, if_false] at h
      intro e' he'
      rcases List.mem_cons.mp he' with rfl | hmem
      · simp only
        cases hkq : k == q with
        | true => rw [beq_iff_eq.mp hkq] at hqk; simp at hqk
        | false => rfl
      · exact ih h e' hmem

lemma filter_eq_self_of_all {l : List (String × Nat)} {q : String}
    (h : ∀ e ∈ l, (e.1 == q) = false) : l.filter (fun e => !(e.1 == q)) = l :=
  List.filter_eq_self.mpr (fun a ha => by simp [h a ha])

/-- Outcome of one `create_hardlink` call under the conditions of a normal
organizer run: existing source, destination distinct from it, same device.
The run succeeds and the resulting file table is the destination entry on
top of the old table purged of any destination entry. -/
lemma create_hardlink_eq (fs : Fs) (src dst : String) (ino : Nat)
    (h1 : fsLookup fs src = some ino) (h2 : src ≠ dst) (h3 : fs.dev src = fs.dev dst) :
    create_hardlink fs src dst =
      (true, Fs.mk ((dst, ino) :: fs.files.filter (fun e => !(e.1 == dst))) fs.dev) := by
  have hdev : (fs.dev src == fs.dev dst) = true := by simp [h3]
  rw [create_hardlink]
  by_cases hd : (fsLookup fs dst).isSome
  · have hfs1 : (if (fsLookup fs dst).isSome then fsUnlink fs dst else fs) = fsUnlink fs dst :=
      if_pos hd
    rw [hfs1]
    have hsrc : fsLookup (fsUnlink fs dst) src = some ino := by
      simpa [fsLookup, fsUnlink] using (lookup_filter_ne h2).trans h1
    have hdst : fsLookup (fsUnlink fs dst) dst = none := by
      simp [fsLookup, fsUnlink, lookup_filter_self]
    rw [osLink, hsrc, hdst]
    simp [fsUnlink, hdev]
  · have hdn : fsLookup fs dst = none := Option.not_isSome_iff_eq_none.mp hd
    have hfs1 : (if (fsLookup fs dst).isSome then fsUnlink fs dst else fs) = fs := if_neg hd
    rw [hfs1, osLink, h1, hdn]
    simp only [Option.isSome_none, Bool.false_eq_true, if_false, hdev, if_true]
    rw [filter_eq_self_of_all (lookup_none_all hdn)]

/-! ## Characterization of the title-case loop -/

lemma title_case_go_length (n k : Nat) (ws : List String) :
    (title_case_go n k ws).length = ws.length := by
  induction ws generalizing k with
  | nil => rfl
  | cons w t ih => simp [title_case_go, ih]

lemma title_case_go_getD (n : Nat) (ws : List String) (k i : Nat) :
    (title_case_go n k ws).getD i "" =
      if i < ws.length then
        (if k + i = 0 ∨ k + i = n - 1 then pyCapitalize (ws.getD i "")
         else if lowercase_words.contains (pyLower (ws.getD i "")) then pyLower (ws.getD i "")
         else pyCapitalize (ws.getD i ""))
      else "" := by
  induction ws generalizing k i with
  | nil => simp [title_case_go]
  | cons w t ih =>
    cases i with
    | zero => simp [title_case_go]
    | succ j =>
      rw [title_case_go, List.getD_cons_succ, ih (k + 1) j]
      have hrw : k + 1 + j = k + (j + 1) := by omega
      rw [hrw]
      simp [Nat.succ_lt_succ_iff]

/-! ## Sanitization lemmas -/

lemma hasBadChar_sanitize (s : String) : hasBadChar (sanitize s) = false := by
  simp only [hasBadChar, sanitize]
  rw [List.any_eq_false]
  intro c hc
  rw [List.mem_filter] at hc
  simpa using hc.2

lemma badChar_toLower_eq {c : Char} (hc : badChars.contains c = true) :
    Char.toLower c = c := by
  have hm : c ∈ badChars := by simpa using hc
  fin_cases hm <;> rfl

lemma hasBadChar_of_lower_ext {s : String} (h : pyLower s ∈ video_extensions) :
    hasBadChar s = false := by
  rw [hasBadChar, List.any_eq_false]
  intro c hc
  simp only [Bool.not_eq_true]
  by_contra hcon
  rw [Bool.not_eq_false] at hcon
  have hlc : Char.toLower c = c := badChar_toLower_eq hcon
  have hmem : Char.toLower c ∈ (pyLower s).data := by
    simp only [pyLower]
    exact List.mem_map.mpr ⟨c, hc, rfl⟩
  rw [hlc] at hmem
  have hall : ∀ t ∈ video_extensions, ∀ x ∈ String.data t, badChars.contains x = false := by
    decide
  have := hall _ h c hmem
  rw [this] at hcon
  exact Bool.false_ne_true hcon

lemma hasBadChar_append (a b : String) : hasBadChar (a ++ b) = (hasBadChar a || hasBadChar b) := by
  cases a with | mk da =>
  cases b with | mk db =>
  simp [hasBadChar, String.append]

lemma pad2_hasBadChar : ∀ n ≤ 99, hasBadChar (pad2 n) = false := by decide

/-! ## Claims -/

/-- C1 (counterexample): organizing the staged file
`rick.and.morty.s08e01.1080p.web.h264.mkv` does not yield the claimed
destination with show directory and episode filename capitalized as
`Rick And Morty`: the title normalizer forces the minor word "and"
lowercase in the middle of a title. -/
theorem c1_roundtrip_counterexample :
    dest_path "movies" "tv" "rick.and.morty.s08e01.1080p.web.h264.mkv" ≠
      some ["tv", "Rick And Morty", "Season 08", "Rick And Morty - S08E01.mkv"] := by
  decide

/-- C1 (amended): organizing `rick.and.morty.s08e01.1080p.web.h264.mkv`
yields `{tvRoot}/Rick and Morty/Season 08/Rick and Morty - S08E01.mkv`,
with the minor word "and" lowercased by the title normalizer. -/
theorem c1_roundtrip_amended (moviesRoot tvRoot : String) :
    dest_path moviesRoot tvRoot "rick.and.morty.s08e01.1080p.web.h264.mkv" =
      some [tvRoot, "Rick and Morty", "Season 08", "Rick and Morty - S08E01.mkv"] := rfl

/-- C2: a filename whose stem contains a token matching `S<n>E<m>`
(case-insensitive, 1-2 digits each) is classified as an episode and the
year is not populated even if a 4-digit year also appears; the populated
season and episode are the numbers parsed from the matched (leftmost)
such token of the stem. -/
theorem c2_se_classification (fn : String) :
    ((∃ pre tok suf n m, (pyStem fn).data = pre ++ tok ++ suf ∧ isSEToken tok n m) →
      (parse_filename fn).is_tv = true ∧ (parse_filename fn).year = none) ∧
    (∀ pre n m rest, searchSE (pyStem fn).data = some (pre, n, m, rest) →
      (parse_filename fn).season = some n ∧ (parse_filename fn).episode = some m ∧
      ∃ tok, (pyStem fn).data = pre ++ tok ++ rest ∧ isSEToken tok n m) := by
  constructor
  · rintro ⟨pre, tok, suf, n, m, hdecomp, htok⟩
    have h1 := matchSEAt_complete suf htok
    have h2 := searchSE_complete pre h1
    rw [← List.append_assoc, ← hdecomp] at h2
    obtain ⟨⟨pre', n', m', r'⟩, hq⟩ := Option.isSome_iff_exists.mp h2
    obtain ⟨ht, hy, _, _⟩ := parse_filename_tv hq
    exact ⟨ht, hy⟩
  · intro pre n m rest hq
    obtain ⟨_, _, hs, he⟩ := parse_filename_tv hq
    obtain ⟨tok, hdecomp, htok⟩ := searchSE_sound hq
    exact ⟨hs, he, tok, hdecomp, htok⟩

/-- C2 (witness): instantiation at `show.s01e02.mkv`, using the explicit
decomposition around the token `s01e02`. -/
theorem c2_se_classification_witness :
    (parse_filename "show.s01e02.mkv").is_tv = true ∧
    (parse_filename "show.s01e02.mkv").year = none ∧
    (parse_filename "show.s01e02.mkv").season = some 1 ∧
    (parse_filename "show.s01e02.mkv").episode = some 2 := by
  have h := c2_se_classification "show.s01e02.mkv"
  have hd : ∃ pre tok suf n m,
      (pyStem "show.s01e02.mkv").data = pre ++ tok ++ suf ∧ isSEToken tok n m := by
    refine ⟨"show.".data, "s01e02".data, [], 1, 2, by decide,
      's', ['0', '1'], 'e', ['0', '2'], by decide, Or.inr rfl, Or.inr rfl,
      by decide, by decide, by decide, by decide, by decide, by decide, by decide, by decide⟩
  obtain ⟨h1, h2⟩ := h.1 hd
  obtain ⟨h3, h4, _⟩ := h.2 "show.".data 1 2 [] (by decide)
  exact ⟨h1, h2, h3, h4⟩

/-- C3 (counterexample): `2001.A.Space.Odyssey.[1968].mkv` contains the
bracketed in-range year 1968 and no season/episode token, yet the
classifier returns year 2001: the year regex also matches the leading
bare `2001`, and the leftmost match wins. -/
theorem c3_year_counterexample :
    ((pyStem "2001.A.Space.Odyssey.[1968].mkv").data =
        "2001.A.Space.Odyssey.".data ++ "[1968]".data ++ [] ∧
      isYearToken "[1968]".data 1968 ∧
      ¬ (∃ pre tok suf n m, (pyStem "2001.A.Space.Odyssey.[1968].mkv").data =
          pre ++ tok ++ suf ∧ isSEToken tok n m)) ∧
    (parse_filename "2001.A.Space.Odyssey.[1968].mkv").is_tv = false ∧
    (parse_filename "2001.A.Space.Odyssey.[1968].mkv").year = some 2001 ∧
    (some 2001 : Option Nat) ≠ some 1968 := by
  refine ⟨⟨by decide, ?_, no_se_token_of_searchSE_none (by decide)⟩,
    by decide, by decide, by decide⟩
  exact ⟨'[', ['1', '9', '6', '8'], ']', by decide, Or.inr rfl, Or.inr rfl,
    '1', '9', '6', '8', rfl, Or.inl ⟨rfl, rfl⟩, by decide, by decide, by decide⟩

/-- C3 (amended): when the stem has no season/episode token and the year
search hits, the classifier returns a movie whose year is the value of the
leftmost year-pattern match of the stem (a bare `19xx`/`20xx` with
optional brackets) — which is the bracketed year only when no year-like
number precedes it. -/
theorem c3_year_amended (fn : String) (pre : List Char) (y : Nat) (rest : List Char)
    (hse : searchSE (pyStem fn).data = none)
    (hy : searchYear (pyStem fn).data = some (pre, y, rest)) :
    (parse_filename fn).is_tv = false ∧ (parse_filename fn).year = some y ∧
    ∃ tok, (pyStem fn).data = pre ++ tok ++ rest ∧ yearMatchToken tok y := by
  obtain ⟨h1, h2⟩ := parse_filename_movie_year hse hy
  obtain ⟨tok, hdec, hym⟩ := searchYear_sound hy
  exact ⟨h1, h2, tok, hdec, hym⟩

/-- C3 (witness): instantiation at `the.matrix.1999.1080p.mkv`. -/
theorem c3_year_amended_witness :
    searchYear (pyStem "the.matrix.1999.1080p.mkv").data =
      some ("the.matrix.".data, 1999, ".1080p".data) ∧
    (parse_filename "the.matrix.1999.1080p.mkv").is_tv = false ∧
    (parse_filename "the.matrix.1999.1080p.mkv").year = some 1999 := by
  have h := c3_year_amended "the.matrix.1999.1080p.mkv" "the.matrix.".data 1999
    ".1080p".data (by decide) (by decide)
  exact ⟨by decide, h.1, h.2.1⟩

/-- C9 (counterexample): `specials.s00e01.mkv` is classified as an episode
with season 0, which is not strictly positive. -/
theorem c9_positive_counterexample :
    (parse_filename "specials.s00e01.mkv").is_tv = true ∧
    (parse_filename "specials.s00e01.mkv").season = some 0 ∧ ¬ (0 < 0) := by
  exact ⟨by decide, by decide, by decide⟩

/-- C9 (amended): season and episode are natural numbers at most 99
(zero included, since the pattern accepts `S00`), and they are populated
exactly when the file is classified as an episode. -/
theorem c9_fields_amended (fn : String) :
    ((parse_filename fn).is_tv = true →
      ∃ n m, (parse_filename fn).season = some n ∧ (parse_filename fn).episode = some m ∧
        n ≤ 99 ∧ m ≤ 99) ∧
    ((parse_filename fn).is_tv = false →
      (parse_filename fn).season = none ∧ (parse_filename fn).episode = none) := by
  cases hq : searchSE (pyStem fn).data with
  | some p =>
    obtain ⟨pre, n, m, r⟩ := p
    obtain ⟨ht, _, hs, he⟩ := parse_filename_tv hq
    obtain ⟨tok, _, htok⟩ := searchSE_sound hq
    obtain ⟨hn, hm⟩ := isSEToken_le_99 htok
    refine ⟨fun _ => ⟨n, m, hs, he, hn, hm⟩, fun hf => ?_⟩
    rw [ht] at hf
    exact absurd hf (by simp)
  | none =>
    obtain ⟨ht, hs, he⟩ := parse_filename_movie hq
    refine ⟨fun htv => ?_, fun _ => ⟨hs, he⟩⟩
    rw [ht] at htv
    exact absurd htv (by simp)

/-- C9 (witness): instantiation at an episode filename and a movie
filename. -/
theorem c9_fields_amended_witness :
    (∃ n m, (parse_filename "show.s01e02.mkv").season = some n ∧
      (parse_filename "show.s01e02.mkv").episode = some m ∧ n ≤ 99 ∧ m ≤ 99) ∧
    (parse_filename "the.matrix.1999.1080p.mkv").season = none := by
  exact ⟨(c9_fields_amended "show.s01e02.mkv").1 (by decide),
    ((c9_fields_amended "the.matrix.1999.1080p.mkv").2 (by decide)).1⟩

/-- C4: the title normalizer capitalizes every whitespace-separated word
except those in the fixed minor-word set, which are forced lowercase,
while the first and the last word are always capitalized even when they
are minor words; a single-word title falls under the first-word rule and
is capitalized. -/
theorem c4_title_case (text : String) (i : Nat) (h : i < (pySplitWs text).length) :
    title_case text =
      joinSpace (title_case_go (pySplitWs text).length 0 (pySplitWs text)) ∧
    (title_case_go (pySplitWs text).length 0 (pySplitWs text)).length =
      (pySplitWs text).length ∧
    (title_case_go (pySplitWs text).length 0 (pySplitWs text)).getD i "" =
      (if i = 0 ∨ i = (pySplitWs text).length - 1 then
        pyCapitalize ((pySplitWs text).getD i "")
       else if lowercase_words.contains (pyLower ((pySplitWs text).getD i "")) then
        pyLower ((pySplitWs text).getD i "")
       else pyCapitalize ((pySplitWs text).getD i "")) := by
  refine ⟨rfl, title_case_go_length _ _ _, ?_⟩
  rw [title_case_go_getD]
  simp [h]

/-- C4 (witness): on "the lord of the rings" the middle minor word "of"
stays lowercase while the boundary minor words are capitalized. -/
theorem c4_title_case_witness :
    2 < (pySplitWs "the lord of the rings").length ∧
    (title_case_go (pySplitWs "the lord of the rings").length 0
      (pySplitWs "the lord of the rings")).getD 2 "" = "of" ∧
    title_case "the lord of the rings" = "The Lord of the Rings" := by
  have h := c4_title_case "the lord of the rings" 2 (by decide)
  exact ⟨by decide, h.2.2.trans (by decide), by decide⟩

/-- C5 (counterexample): the movie destination filename is the source name
unchanged, so organizing `what?.mkv` yields a filename component that
still contains the unsafe character `?`; the claim that every component
is stripped of unsafe characters fails. -/
theorem c5_sanitize_counterexample :
    dest_path "movies" "tv" "what?.mkv" = some ["movies", "What", "what?.mkv"] ∧
    hasBadChar "what?.mkv" = true := by
  exact ⟨by decide, by decide⟩

/-- C5 (amended): for a discovered video file, every destination component
other than the configured root is free of the unsafe characters, except
the movie filename, which is exactly the unsanitized source file name
(extension preserved); the TV episode filename is built from sanitized
parts and the recognized extension and is unsafe-free. -/
theorem c5_sanitize_amended (moviesRoot tvRoot fn : String)
    (hext : pyLower (pySuffix fn) ∈ video_extensions) :
    ((parse_filename fn).is_tv = false →
      ∃ dir, dest_path moviesRoot tvRoot fn = some [moviesRoot, dir, fn] ∧
        hasBadChar dir = false) ∧
    ((parse_filename fn).is_tv = true →
      ∃ a b c, dest_path moviesRoot tvRoot fn = some [tvRoot, a, b, c] ∧
        hasBadChar a = false ∧ hasBadChar b = false ∧ hasBadChar c = false) := by
  constructor
  · intro hmov
    cases hy : (parse_filename fn).year with
    | some y =>
      refine ⟨sanitize ((parse_filename fn).title ++ " (" ++ Nat.repr y ++ ")"), ?_,
        hasBadChar_sanitize _⟩
      simp [dest_path, hmov, organize_movie, hy]
    | none =>
      refine ⟨sanitize (parse_filename fn).title, ?_, hasBadChar_sanitize _⟩
      simp [dest_path, hmov, organize_movie, hy]
  · intro htv
    cases hq : searchSE (pyStem fn).data with
    | none =>
      obtain ⟨ht, _, _⟩ := parse_filename_movie hq
      rw [ht] at htv
      exact absurd htv (by simp)
    | some p =>
      obtain ⟨pre, n, m, r⟩ := p
      obtain ⟨_, _, hs, he⟩ := parse_filename_tv hq
      obtain ⟨tok, _, htok⟩ := searchSE_sound hq
      obtain ⟨hn, hm⟩ := isSEToken_le_99 htok
      have hSeason : hasBadChar ("Season " ++ pad2 n) = false := by
        rw [hasBadChar_append, pad2_hasBadChar n hn]
        decide
      have hEp : hasBadChar (sanitize (parse_filename fn).title ++ " - S" ++ pad2 n ++
          "E" ++ pad2 m ++ pySuffix fn) = false := by
        rw [hasBadChar_append, hasBadChar_append, hasBadChar_append, hasBadChar_append,
          hasBadChar_append, hasBadChar_sanitize, pad2_hasBadChar n hn, pad2_hasBadChar m hm,
          hasBadChar_of_lower_ext hext]
        decide
      refine ⟨sanitize (parse_filename fn).title, "Season " ++ pad2 n,
        sanitize (parse_filename fn).title ++ " - S" ++ pad2 n ++ "E" ++ pad2 m ++
          pySuffix fn, ?_, hasBadChar_sanitize _, hSeason, hEp⟩
      simp [dest_path, htv, hs, he, organize_tv_show]

/-- C5 (witness): instantiation of the amended claim at the episode file
`show.s01e02.mkv`. -/
theorem c5_sanitize_amended_witness :
    pyLower (pySuffix "show.s01e02.mkv") ∈ video_extensions ∧
    (∃ a b c, dest_path "movies" "tv" "show.s01e02.mkv" = some ["tv", a, b, c] ∧
      hasBadChar a = false ∧ hasBadChar b = false ∧ hasBadChar c = false) := by
  exact ⟨by decide,
    (c5_sanitize_amended "movies" "tv" "show.s01e02.mkv" (by decide)).2 (by decide)⟩

/-- C6: organizing the same source to the same destination twice in a row:
both runs report success, the second run reproduces exactly the state
left by the first, and after it the destination path is one single
directory entry referring to the source file's inode. -/
theorem c6_overwrite_idempotent (fs : Fs) (src dst : String) (ino : Nat)
    (h1 : fsLookup fs src = some ino) (h2 : src ≠ dst) (h3 : fs.dev src = fs.dev dst) :
    (create_hardlink fs src dst).1 = true ∧
    (create_hardlink (create_hardlink fs src dst).2 src dst).1 = true ∧
    (create_hardlink (create_hardlink fs src dst).2 src dst).2 =
      (create_hardlink fs src dst).2 ∧
    fsLookup (create_hardlink fs src dst).2 src = some ino ∧
    fsLookup (create_hardlink fs src dst).2 dst = some ino ∧
    (create_hardlink fs src dst).2.files.countP (fun e => e.1 == dst) = 1 := by
  have hrun1 := create_hardlink_eq fs src dst ino h1 h2 h3
  have hFsrc : (fs.files.filter (fun e => !(e.1 == dst))).lookup src = some ino :=
    (lookup_filter_ne h2).trans h1
  have hFall : ∀ e ∈ fs.files.filter (fun e => !(e.1 == dst)), (e.1 == dst) = false :=
    lookup_none_all lookup_filter_self
  have hsd : (src == dst) = false := by simp [h2]
  have hsrc2 : fsLookup
      (Fs.mk ((dst, ino) :: fs.files.filter (fun e => !(e.1 == dst))) fs.dev) src =
      some ino := by
    show List.lookup src ((dst, ino) :: fs.files.filter (fun e => !(e.1 == dst))) = some ino
    rw [lookup_cons, hsd]
    simpa using hFsrc
  have hrun2 := create_hardlink_eq
    (Fs.mk ((dst, ino) :: fs.files.filter (fun e => !(e.1 == dst))) fs.dev)
    src dst ino hsrc2 h2 h3
  have hff : ((dst, ino) :: fs.files.filter (fun e => !(e.1 == dst))).filter
      (fun e => !(e.1 == dst)) = fs.files.filter (fun e => !(e.1 == dst)) := by
    rw [List.filter_cons]
    simp only [beq_self_eq_true, Bool.not_true, Bool.false_eq_true, if_false]
    exact filter_eq_self_of_all hFall
  refine ⟨by simp [hrun1], ?_, ?_, ?_, ?_, ?_⟩
  · simp only [hrun1]
    simp only [hrun2, hff]
  · simp only [hrun1]
    simp [hrun2, hff]
  · simp only [hrun1]
    exact hsrc2
  · simp only [hrun1]
    show List.lookup dst ((dst, ino) :: fs.files.filter (fun e => !(e.1 == dst))) = some ino
    rw [lookup_cons]
    simp
  · simp only [hrun1]
    show ((dst, ino) :: fs.files.filter (fun e => !(e.1 == dst))).countP
      (fun e => e.1 == dst) = 1
    rw [List.countP_cons]
    have hzero : (fs.files.filter (fun e => !(e.1 == dst))).countP
        (fun e => e.1 == dst) = 0 :=
      List.countP_eq_zero.mpr (fun e he => by simp [hFall e he])
    simp [hzero]

/-- C6 (witness): instantiation with a one-file staging filesystem. -/
theorem c6_overwrite_idempotent_witness :
    fsLookup (Fs.mk [("a.mkv", 7)] (fun _ => 0)) "a.mkv" = some 7 ∧
    (create_hardlink (create_hardlink (Fs.mk [("a.mkv", 7)] (fun _ => 0))
        "a.mkv" "b.mkv").2 "a.mkv" "b.mkv").2 =
      (create_hardlink (Fs.mk [("a.mkv", 7)] (fun _ => 0)) "a.mkv" "b.mkv").2 := by
  refine ⟨by decide, ?_⟩
  exact (c6_overwrite_idempotent (Fs.mk [("a.mkv", 7)] (fun _ => 0)) "a.mkv" "b.mkv" 7
    (by decide) (by decide) rfl).2.2.1

/-- C7: in the reconciler's scan, every regular file with a recognized
extension and OS link count exactly 1 is reported as orphaned, and a file
with link count 2 or more is never reported. -/
theorem c7_orphan_scan (entries : List ScanFile) (f : ScanFile)
    (hmem : f ∈ entries) (hreg : f.isFile = true)
    (hext : cleanup_exts.contains (pyLower (pySuffix (baseName f.path))) = true) :
    (f.nlink = 1 → f ∈ find_broken_hardlinks entries) ∧
    (2 ≤ f.nlink → f ∉ find_broken_hardlinks entries) := by
  constructor
  · intro h1
    rw [find_broken_hardlinks, List.mem_filter]
    have hext2 : pyLower (pySuffix (baseName f.path)) ∈ cleanup_exts := by simpa using hext
    exact ⟨hmem, by simp [hreg, hext2, h1]⟩
  · intro h2 hcon
    rw [find_broken_hardlinks, List.mem_filter] at hcon
    have hc := hcon.2
    simp [hreg, hext] at hc
    omega

/-- C7 (witness): a link-count-1 file is reported, a link-count-2 file is
not. -/
theorem c7_orphan_scan_witness :
    (⟨"/mnt/storage/downloads/complete/x.mkv", true, 1⟩ : ScanFile) ∈
      find_broken_hardlinks [⟨"/mnt/storage/downloads/complete/x.mkv", true, 1⟩] ∧
    (⟨"/mnt/storage/downloads/complete/y.mkv", true, 2⟩ : ScanFile) ∉
      find_broken_hardlinks [⟨"/mnt/storage/downloads/complete/y.mkv", true, 2⟩] := by
  constructor
  · exact (c7_orphan_scan _ _ (by simp) (by decide) (by decide)).1 rfl
  · exact (c7_orphan_scan _ _ (by simp) (by decide) (by decide)).2 (by decide)

/-- C8: the cleanup deletes only after an affirmative confirmation; for
every input whose normalized form is not "y" the run changes nothing —
no file is unlinked and no directory is removed. -/
theorem c8_confirmation_gate (root : String) (st : CleanupFs) (resp : String)
    (h : affirmative resp = false) :
    cleanup_orphaned_files root st resp = st := by
  rw [cleanup_orphaned_files]
  by_cases he : (find_broken_hardlinks st.files).isEmpty <;> simp [he, h]

/-- C8 (witness): answering "n" leaves an orphan-bearing state untouched. -/
theorem c8_confirmation_gate_witness :
    affirmative "n" = false ∧
    cleanup_orphaned_files "/mnt/storage/downloads/complete"
      (CleanupFs.mk [⟨"/mnt/storage/downloads/complete/a/x.mkv", true, 1⟩]
        ["/mnt/storage/downloads/complete/a"]) "n" =
      CleanupFs.mk [⟨"/mnt/storage/downloads/complete/a/x.mkv", true, 1⟩]
        ["/mnt/storage/downloads/complete/a"] := by
  exact ⟨by decide, c8_confirmation_gate _ _ _ (by decide)⟩

/-- C10: with the destination on a different device (a cross-device link
failure), `create_hardlink` removes the pre-existing destination entry,
the link attempt fails, the call reports failure, and the destination no
longer exists — the delete-then-link overwrite is not atomic. -/
theorem c10_nonatomic_overwrite :
    fsLookup (Fs.mk [("s.mkv", 1), ("d.mkv", 2)]
      (fun p => if p == "d.mkv" then 1 else 0)) "d.mkv" = some 2 ∧
    (create_hardlink (Fs.mk [("s.mkv", 1), ("d.mkv", 2)]
      (fun p => if p == "d.mkv" then 1 else 0)) "s.mkv" "d.mkv").1 = false ∧
    fsLookup (create_hardlink (Fs.mk [("s.mkv", 1), ("d.mkv", 2)]
      (fun p => if p == "d.mkv" then 1 else 0)) "s.mkv" "d.mkv").2 "d.mkv" = none := by
  exact ⟨by decide, by decide, by decide⟩

end MediaServer
